import Mathlib

/-!
Verification of `maskrcnn_benchmark/engine/trainer.py`.

The file contains two functions: `reduce_loss_dict` (distributed averaging of a
loss dictionary for logging) and `do_train` (a training loop followed by a test
loop, both driving a model, an optimizer, a scheduler and metric loggers).

Shallow embedding choices:
* Scalar loss values are rationals (`ℚ`); the Python code works with scalar
  tensors whose arithmetic (sum, division by an integer) is exact here.
* Dictionary keys in Python are strings compared with their total order; the
  embedding is parametric over any linearly ordered key type `κ`.
* A Python `dict` is an association list `List (κ × ℚ)` whose list order is the
  dict's insertion (iteration) order.
* `torch.distributed` state is passed explicitly: `world_size` (from
  `get_world_size()`), `rank` (from `dist.get_rank()`), and a function
  `f : List ℚ → List ℚ` giving the content that the in-place collective
  `dist.reduce(all_losses, dst=0)` leaves in this rank's stacked tensor.
  For the destination rank the collective's semantics (ReduceOp.SUM) is the
  elementwise sum over all workers' tensors, `reduceSum` below.
* Exceptions from the model's forward pass are modelled by `Option`: the model
  returns `none` exactly when `model(images, targets)` raises.
* Side effects of the loop (scheduler steps, optimizer calls, backward, metric
  updates, collective calls, periodic logging) are recorded in an event trace.
-/

/-- A loss dictionary: keys in insertion order, each with its scalar value. -/
abbrev LossDict (κ : Type) := List (κ × ℚ)

/-- The keys of a loss dictionary in ascending order: `sorted(loss_dict.keys())`
(trainer.py line 25), embedded with a stable sort. -/
def sortedKeys {κ : Type} [LinearOrder κ] (d : LossDict κ) : List κ :=
  (d.map Prod.fst).insertionSort (· ≤ ·)

/-- `loss_dict[k]` (trainer.py line 27): first binding of `k`; the default `0`
is never reached when `k` is a key of `d`. -/
def lookupD {κ : Type} [LinearOrder κ] (d : LossDict κ) (k : κ) : ℚ :=
  (d.lookup k).getD 0

/-- `torch.stack(all_losses, dim=0)` applied to the values read off in sorted
key order (trainer.py lines 25-28): a fresh tensor holding the values of `d`
at `sortedKeys d`. -/
def stackOf {κ : Type} [LinearOrder κ] (d : LossDict κ) : List ℚ :=
  (sortedKeys d).map (lookupD d)

/-- A collective operation issued to the distributed backend. The only one in
this file is `dist.reduce(all_losses, dst=0)` (trainer.py line 29). -/
inductive Collective where
  | reduceTo (dst : Nat)
deriving DecidableEq

/-- `reduce_loss_dict` (trainer.py lines 13-35). Returns the resulting
dictionary together with the list of collective operations issued.
`world_size < 2`: the input is returned as is, no collective is issued.
Otherwise the keys are sorted, the values stacked, `dist.reduce(_, dst=0)` is
issued (its effect on this rank's tensor is `f`), rank 0 divides in place by
`world_size`, and the sorted names are zipped with the resulting tensor. -/
def reduce_loss_dict {κ : Type} [LinearOrder κ] (world_size rank : Nat)
    (f : List ℚ → List ℚ) (loss_dict : LossDict κ) : LossDict κ × List Collective :=
  if world_size < 2 then (loss_dict, [])
  else
    let loss_names := sortedKeys loss_dict
    let all_losses := f (stackOf loss_dict)
    let final := if rank = 0 then all_losses.map (fun v => v / (world_size : ℚ))
                 else all_losses
    (loss_names.zip final, [Collective.reduceTo 0])

/-- Semantics of `dist.reduce` with `ReduceOp.SUM` at the destination rank:
the elementwise sum of all workers' stacked tensors. -/
def reduceSum (tensors : List (List ℚ)) : List ℚ :=
  match tensors with
  | [] => []
  | s :: rest => rest.foldl (fun acc t => List.zipWith (· + ·) acc t) s

/-- `sum(loss for loss in loss_dict.values())` (trainer.py lines 67, 71, 92). -/
def sumLosses {κ : Type} (d : LossDict κ) : ℚ :=
  (d.map Prod.snd).sum

/-- Observable side effects of one pass through a loop body of `do_train`. -/
inductive Event (κ α : Type) where
  | setIteration (it : Nat)
  | schedStep
  | toDevice
  | forward (b : α)
  | collective (c : Collective)
  | meterUpdate (loss : ℚ) (d : LossDict κ)
  | zeroGrad
  | backward (loss : ℚ)
  | optStep
  | logMetrics
deriving DecidableEq

/-- True exactly on `schedStep` events. -/
def eventIsSched {κ α : Type} : Event κ α → Bool
  | Event.schedStep => true
  | _ => false

/-- True exactly on collective-operation events. -/
def eventIsCollective {κ α : Type} : Event κ α → Bool
  | Event.collective _ => true
  | _ => false

/-- The metric-logger update of one training iteration (trainer.py lines
70-72): `none` when the forward pass raised, otherwise the pair of
`losses_reduced` and `loss_dict_reduced` passed to `meters.update`. -/
def trainStepMeter {κ α : Type} [LinearOrder κ] (model : α → Option (LossDict κ))
    (ws rank : Nat) (f : List ℚ → List ℚ) (b : α) : Option (ℚ × LossDict κ) :=
  (model b).map (fun ld =>
    let ldRed := (reduce_loss_dict ws rank f ld).1
    (sumLosses ldRed, ldRed))

/-- The event trace of one training iteration with iteration number `it`
(trainer.py lines 54-79): set `arguments["iteration"]`, step the scheduler,
move the batch to the device, attempt the forward pass; on an exception the
rest of the body is skipped (`continue`), otherwise the collective runs inside
`reduce_loss_dict`, the meters are updated, gradients are zeroed, the
unreduced summed loss is backpropagated, the optimizer steps, and every tenth
iteration (or the last) the meters are logged. -/
def trainStepTrace {κ α : Type} [LinearOrder κ] (model : α → Option (LossDict κ))
    (ws rank : Nat) (f : List ℚ → List ℚ) (maxIter it : Nat) (b : α) : List (Event κ α) :=
  match model b with
  | none => [Event.setIteration it, Event.schedStep, Event.toDevice, Event.forward b]
  | some ld =>
      let red := reduce_loss_dict ws rank f ld
      [Event.setIteration it, Event.schedStep, Event.toDevice, Event.forward b]
        ++ red.2.map Event.collective
        ++ [Event.meterUpdate (sumLosses red.1) red.1, Event.zeroGrad,
            Event.backward (sumLosses ld), Event.optStep]
        ++ (if it % 10 = 0 ∨ it = maxIter then [Event.logMetrics] else [])

/-- State threaded through the training loop: the value of
`arguments["iteration"]`, the train `MetricLogger`'s updates, and the trace. -/
structure TrainState (κ α : Type) where
  argumentsIteration : Nat
  trainMeters : List (ℚ × LossDict κ)
  trace : List (Event κ α)

/-- One step of the training loop fold: the enumerated index `ib.1` becomes the
one-based iteration `ib.1 + 1` (trainer.py lines 54-56). -/
def trainBody {κ α : Type} [LinearOrder κ] (model : α → Option (LossDict κ))
    (ws rank : Nat) (f : List ℚ → List ℚ) (maxIter : Nat)
    (st : TrainState κ α) (ib : Nat × α) : TrainState κ α :=
  { argumentsIteration := ib.1 + 1,
    trainMeters := st.trainMeters ++ (trainStepMeter model ws rank f ib.2).toList,
    trace := st.trace ++ trainStepTrace model ws rank f maxIter (ib.1 + 1) ib.2 }

/-- The training loop (trainer.py lines 54-79):
`for iteration, (images, targets, _) in enumerate(train_data_loader, start_iter)`. -/
def runTrainLoop {κ α : Type} [LinearOrder κ] (model : α → Option (LossDict κ))
    (ws rank : Nat) (f : List ℚ → List ℚ) (maxIter startIter : Nat)
    (batches : List α) : TrainState κ α :=
  (List.enumFrom startIter batches).foldl (trainBody model ws rank f maxIter)
    { argumentsIteration := startIter, trainMeters := [], trace := [] }

/-- The metric-logger update of one test iteration (trainer.py lines 91-93). -/
def testStepMeter {κ α : Type} [LinearOrder κ] (model : α → Option (LossDict κ))
    (ws rank : Nat) (f : List ℚ → List ℚ) (b : α) : Option (ℚ × LossDict κ) :=
  (model b).map (fun ld =>
    let ldRed := (reduce_loss_dict ws rank f ld).1
    (sumLosses ldRed, ldRed))

/-- The event trace of one test iteration (trainer.py lines 82-93): move the
batch to the device, attempt the forward pass; on an exception skip the rest,
otherwise reduce and update the test meters. No scheduler, optimizer or
iteration bookkeeping happens here. -/
def testStepTrace {κ α : Type} [LinearOrder κ] (model : α → Option (LossDict κ))
    (ws rank : Nat) (f : List ℚ → List ℚ) (b : α) : List (Event κ α) :=
  match model b with
  | none => [Event.toDevice, Event.forward b]
  | some ld =>
      let red := reduce_loss_dict ws rank f ld
      [Event.toDevice, Event.forward b]
        ++ red.2.map Event.collective
        ++ [Event.meterUpdate (sumLosses red.1) red.1]

/-- One step of the test loop fold. -/
def testBody {κ α : Type} [LinearOrder κ] (model : α → Option (LossDict κ))
    (ws rank : Nat) (f : List ℚ → List ℚ)
    (st : List (ℚ × LossDict κ) × List (Event κ α)) (b : α) :
    List (ℚ × LossDict κ) × List (Event κ α) :=
  (st.1 ++ (testStepMeter model ws rank f b).toList,
   st.2 ++ testStepTrace model ws rank f b)

/-- The test loop (trainer.py lines 81-93), returning the test meters' updates
and the trace. -/
def runTestLoop {κ α : Type} [LinearOrder κ] (model : α → Option (LossDict κ))
    (ws rank : Nat) (f : List ℚ → List ℚ) (batches : List α) :
    List (ℚ × LossDict κ) × List (Event κ α) :=
  batches.foldl (testBody model ws rank f) ([], [])

/-- Everything observable about one call of `do_train` (trainer.py lines
38-103): both meter lists, the final value of the caller-visible
`arguments["iteration"]`, and the two event traces. -/
structure DoTrainResult (κ α : Type) where
  trainMeters : List (ℚ × LossDict κ)
  testMeters : List (ℚ × LossDict κ)
  argumentsIteration : Nat
  trainTrace : List (Event κ α)
  testTrace : List (Event κ α)

/-- `do_train` with its instrumentation: runs the training loop (with
`max_iter = len(train_data_loader)`, line 49) and then the test loop. -/
def do_train_effects {κ α : Type} [LinearOrder κ] (model : α → Option (LossDict κ))
    (ws rank : Nat) (f : List ℚ → List ℚ) (trainBatches testBatches : List α)
    (startIter : Nat) : DoTrainResult κ α :=
  let ts := runTrainLoop model ws rank f trainBatches.length startIter trainBatches
  let te := runTestLoop model ws rank f testBatches
  { trainMeters := ts.trainMeters, testMeters := te.1,
    argumentsIteration := ts.argumentsIteration,
    trainTrace := ts.trace, testTrace := te.2 }

/-- The value `do_train` returns (trainer.py line 103):
`return train_meters, test_meters`. -/
def do_train {κ α : Type} [LinearOrder κ] (model : α → Option (LossDict κ))
    (ws rank : Nat) (f : List ℚ → List ℚ) (trainBatches testBatches : List α)
    (startIter : Nat) : List (ℚ × LossDict κ) × List (ℚ × LossDict κ) :=
  ((do_train_effects model ws rank f trainBatches testBatches startIter).trainMeters,
   (do_train_effects model ws rank f trainBatches testBatches startIter).testMeters)

/-- A store of scalar tensor cells; an address is an index into `vals`. -/
structure Heap where
  vals : List ℚ

/-- The value held at address `a`. -/
def Heap.read (h : Heap) (a : Nat) : ℚ :=
  h.vals.getD a 0

/-- A loss dictionary at the object level: each key maps to the address of its
tensor. -/
abbrev RefLossDict (κ : Type) := List (κ × Nat)

/-- Sorted keys of a reference-level dictionary. -/
def sortedKeysR {κ : Type} [LinearOrder κ] (d : RefLossDict κ) : List κ :=
  (d.map Prod.fst).insertionSort (· ≤ ·)

/-- Address of key `k` in a reference-level dictionary. -/
def lookupR {κ : Type} [LinearOrder κ] (d : RefLossDict κ) (k : κ) : Nat :=
  (d.lookup k).getD 0

/-- Heap-level `reduce_loss_dict` (trainer.py lines 13-35), making allocation
explicit: `torch.stack` copies the input values into a fresh tensor placed at
the fresh addresses `h.vals.length, h.vals.length + 1, ...`; `dist.reduce` and
the rank-0 in-place division write only to that fresh tensor (their combined
effect on its cells is `f` then the division); the returned dictionary maps
the sorted names to the fresh addresses. Input cells are never written. -/
def reduce_loss_dict_heap {κ : Type} [LinearOrder κ] (world_size rank : Nat)
    (f : List ℚ → List ℚ) (h : Heap) (loss_dict : RefLossDict κ) :
    Heap × RefLossDict κ :=
  if world_size < 2 then (h, loss_dict)
  else
    let loss_names := sortedKeysR loss_dict
    let stacked := loss_names.map (fun k => h.read (lookupR loss_dict k))
    let base := h.vals.length
    let reduced := f stacked
    let final := if rank = 0 then reduced.map (fun v => v / (world_size : ℚ))
                 else reduced
    (⟨h.vals ++ final⟩, loss_names.enum.map (fun p => (p.2, base + p.1)))

/-! ### Helper lemmas -/

theorem zipWith_add_map {γ : Type} (K : List γ) (g₁ g₂ : γ → ℚ) :
    List.zipWith (· + ·) (K.map g₁) (K.map g₂) = K.map (fun k => g₁ k + g₂ k) := by
  induction K with
  | nil => rfl
  | cons a t ih => simp [ih]

theorem foldl_zipWith_maps {γ β : Type} (K : List γ) (ds : List β)
    (v : β → γ → ℚ) (g0 : γ → ℚ) :
    ds.foldl (fun acc d => List.zipWith (· + ·) acc (K.map (v d))) (K.map g0)
      = K.map (fun k => g0 k + (ds.map (fun d => v d k)).sum) := by
  induction ds generalizing g0 with
  | nil => simp
  | cons d t ih =>
      simp only [List.foldl_cons, zipWith_add_map, ih, List.map_cons, List.sum_cons]
      simp [add_assoc]

theorem sortedKeys_eq_of_perm {κ : Type} [LinearOrder κ] {d d0 : LossDict κ}
    (h : List.Perm (d.map Prod.fst) (d0.map Prod.fst)) :
    sortedKeys d = sortedKeys d0 := by
  have hp : List.Perm (sortedKeys d) (sortedKeys d0) :=
    ((List.perm_insertionSort _ _).trans h).trans
      (List.perm_insertionSort _ _).symm
  exact List.eq_of_perm_of_sorted hp
    (List.sorted_insertionSort _ _) (List.sorted_insertionSort _ _)

theorem reduceSum_cons (s : List ℚ) (rest : List (List ℚ)) :
    reduceSum (s :: rest) = rest.foldl (fun acc t => List.zipWith (· + ·) acc t) s := rfl

theorem zip_self_map {γ β : Type} (l : List γ) (g : γ → β) :
    l.zip (l.map g) = l.map (fun a => (a, g a)) := by
  induction l with
  | nil => rfl
  | cons a t ih => simp [ih]

/-! ### Claims about `reduce_loss_dict` -/

/-- C2: when `world_size < 2`, `reduce_loss_dict` returns its input unchanged
and issues no collective operation (trainer.py lines 19-21 return before any
sorting, reduction or division happens). -/
theorem reduce_loss_dict_identity_small_world {κ : Type} [LinearOrder κ]
    (ws rank : Nat) (f : List ℚ → List ℚ) (d : LossDict κ) (h : ws < 2) :
    reduce_loss_dict ws rank f d = (d, []) := by
  simp [reduce_loss_dict, h]

theorem reduce_loss_dict_identity_small_world_example :
    reduce_loss_dict 1 0 (fun xs => xs) [((0 : Nat), (5 : ℚ))]
      = ([((0 : Nat), (5 : ℚ))], []) :=
  reduce_loss_dict_identity_small_world 1 0 (fun xs => xs)
    [((0 : Nat), (5 : ℚ))] (by decide)

/-- C9: when `world_size ≥ 2` and this process is not rank 0, the returned
values are exactly the post-reduce tensor contents, with no division by
`world_size` (trainer.py lines 30-33 divide only under `dist.get_rank() == 0`). -/
theorem reduce_loss_dict_no_division_off_rank0 {κ : Type} [LinearOrder κ]
    (ws rank : Nat) (f : List ℚ → List ℚ) (d : LossDict κ)
    (hws : 2 ≤ ws) (hr : rank ≠ 0) :
    reduce_loss_dict ws rank f d
      = ((sortedKeys d).zip (f (stackOf d)), [Collective.reduceTo 0]) := by
  have h2 : ¬ ws < 2 := by omega
  simp [reduce_loss_dict, h2, hr]

theorem reduce_loss_dict_no_division_off_rank0_example :
    reduce_loss_dict 2 1 (fun xs => xs.map (fun v => v + v)) [((3 : Nat), (1 : ℚ))]
      = ([((3 : Nat), (2 : ℚ))], [Collective.reduceTo 0]) := by
  rw [reduce_loss_dict_no_division_off_rank0 2 1 (fun xs => xs.map (fun v => v + v))
    [((3 : Nat), (1 : ℚ))] (by decide) (by decide)]
  norm_num [sortedKeys, stackOf, lookupD, List.insertionSort, List.orderedInsert,
    List.lookup]

/-- C3, counterexample: with `world_size < 2` the input dictionary is returned
in its own key order (trainer.py lines 20-21), so for an input whose keys are
not already sorted the returned key order is not the sorted key order. -/
theorem reduce_loss_dict_keys_unsorted_small_world :
    ¬ ((reduce_loss_dict 1 0 (fun xs => xs)
          [((1 : Nat), (0 : ℚ)), (0, 0)]).1.map Prod.fst
        = sortedKeys [((1 : Nat), (0 : ℚ)), (0, 0)]) := by
  decide

/-- C3 (amended): when `world_size ≥ 2` — so that the sort-stack-zip path of
trainer.py lines 22-35 runs — and the collective leaves the tensor's length
unchanged (`dist.reduce` is in place on a fixed-shape tensor), the key order
of the returned mapping is the ascending sort of the input dictionary's keys;
with `world_size < 2` the input is returned in its own key order. -/
theorem reduce_loss_dict_keys_sorted {κ : Type} [LinearOrder κ]
    (ws rank : Nat) (f : List ℚ → List ℚ) (d : LossDict κ)
    (hws : 2 ≤ ws) (hf : ∀ xs, (f xs).length = xs.length) :
    (reduce_loss_dict ws rank f d).1.map Prod.fst = sortedKeys d := by
  have h2 : ¬ ws < 2 := by omega
  simp only [reduce_loss_dict, h2, if_false]
  apply List.map_fst_zip
  by_cases hr : rank = 0 <;>
    simp [hr, hf, stackOf]

theorem reduce_loss_dict_keys_sorted_example :
    (reduce_loss_dict 2 0 (fun xs => xs)
        [((1 : Nat), (4 : ℚ)), (0, 2)]).1.map Prod.fst = [0, 1] := by
  rw [reduce_loss_dict_keys_sorted 2 0 (fun xs => xs)
    [((1 : Nat), (4 : ℚ)), (0, 2)] (by decide) (fun xs => rfl)]
  decide

/-- C1: with `world_size ≥ 2` workers whose loss dictionaries all carry the
same keys (`dicts` lists them by rank, rank 0's being `d0`), running
`reduce_loss_dict` on rank 0 — where `dist.reduce(_, dst=0)` deposits the
elementwise sum of all workers' stacked tensors — returns the sorted key list
paired with the across-worker averages: for each key, the sum of that key's
values over all workers divided by `world_size` (trainer.py lines 22-35). -/
theorem reduce_loss_dict_rank0_average {κ : Type} [LinearOrder κ]
    (dicts : List (LossDict κ)) (d0 : LossDict κ)
    (h0 : dicts.head? = some d0)
    (hws : 2 ≤ dicts.length)
    (hkeys : ∀ d ∈ dicts, List.Perm (d.map Prod.fst) (d0.map Prod.fst)) :
    (reduce_loss_dict dicts.length 0
        (fun _ => reduceSum (dicts.map stackOf)) d0).1
      = (sortedKeys d0).map
          (fun k => (k, (dicts.map (fun d => lookupD d k)).sum / (dicts.length : ℚ))) := by
  obtain ⟨t, rfl⟩ : ∃ t, dicts = d0 :: t := by
    cases dicts with
    | nil => simp at h0
    | cons a t =>
        have ha : a = d0 := by simpa using h0
        exact ⟨t, by rw [ha]⟩
  have hstack : ∀ d ∈ d0 :: t, stackOf d = (sortedKeys d0).map (lookupD d) := by
    intro d hd
    unfold stackOf
    rw [sortedKeys_eq_of_perm (hkeys d hd)]
  have h2 : ¬ (d0 :: t).length < 2 := by omega
  simp only [reduce_loss_dict, h2, if_false, eq_self_iff_true, if_true]
  rw [List.map_congr_left hstack, List.map_cons, reduceSum_cons, List.foldl_map,
    foldl_zipWith_maps, List.map_map, zip_self_map]
  apply List.map_congr_left
  intro k _
  simp [Function.comp]

theorem reduce_loss_dict_rank0_average_example :
    (reduce_loss_dict 2 0
        (fun _ => reduceSum
          ([[((0 : Nat), (1 : ℚ)), (1, 3)], [((1 : Nat), (5 : ℚ)), (0, 3)]].map stackOf))
        [((0 : Nat), (1 : ℚ)), (1, 3)]).1
      = [((0 : Nat), (2 : ℚ)), (1, 4)] := by
  have h := reduce_loss_dict_rank0_average
    [[((0 : Nat), (1 : ℚ)), (1, 3)], [((1 : Nat), (5 : ℚ)), (0, 3)]]
    [((0 : Nat), (1 : ℚ)), (1, 3)] rfl (by decide) (by decide)
  refine h.trans ?_
  simp +decide [sortedKeys, lookupD, List.insertionSort, List.orderedInsert,
    List.lookup]
  norm_num

theorem reduce_loss_dict_snd {κ : Type} [LinearOrder κ]
    (ws rank : Nat) (f : List ℚ → List ℚ) (d : LossDict κ) :
    (reduce_loss_dict ws rank f d).2
      = if ws < 2 then [] else [Collective.reduceTo 0] := by
  by_cases h : ws < 2 <;> simp [reduce_loss_dict, h]

theorem trainLoop_meters {κ α : Type} [LinearOrder κ] (model : α → Option (LossDict κ))
    (ws rank : Nat) (f : List ℚ → List ℚ) (maxIter : Nat)
    (bs : List α) (i : Nat) (st : TrainState κ α) :
    ((List.enumFrom i bs).foldl (trainBody model ws rank f maxIter) st).trainMeters
      = st.trainMeters ++ bs.filterMap (trainStepMeter model ws rank f) := by
  induction bs generalizing i st with
  | nil => simp [List.enumFrom]
  | cons b t ih =>
      have he : List.enumFrom i (b :: t) = (i, b) :: List.enumFrom (i + 1) t := rfl
      rw [he, List.foldl_cons, ih]
      cases h : trainStepMeter model ws rank f b <;>
        simp [trainBody, h, List.filterMap_cons]

theorem trainLoop_args {κ α : Type} [LinearOrder κ] (model : α → Option (LossDict κ))
    (ws rank : Nat) (f : List ℚ → List ℚ) (maxIter : Nat)
    (bs : List α) (i : Nat) (st : TrainState κ α) (hst : st.argumentsIteration = i) :
    ((List.enumFrom i bs).foldl (trainBody model ws rank f maxIter) st).argumentsIteration
      = i + bs.length := by
  induction bs generalizing i st with
  | nil => simpa [List.enumFrom] using hst
  | cons b t ih =>
      have he : List.enumFrom i (b :: t) = (i, b) :: List.enumFrom (i + 1) t := rfl
      rw [he, List.foldl_cons, ih (i + 1) _ rfl]
      simp only [List.length_cons]
      omega

theorem trainStepTrace_sched_count {κ α : Type} [LinearOrder κ]
    (model : α → Option (LossDict κ)) (ws rank : Nat) (f : List ℚ → List ℚ)
    (maxIter it : Nat) (b : α) :
    (trainStepTrace model ws rank f maxIter it b).countP eventIsSched = 1 := by
  cases h : model b with
  | none => simp [trainStepTrace, h, eventIsSched]
  | some ld =>
      by_cases hit : (it % 10 = 0 ∨ it = maxIter) <;>
        simp [trainStepTrace, h, hit, eventIsSched, reduce_loss_dict_snd,
          List.countP_append, List.countP_cons, List.countP_map, Function.comp]

theorem trainLoop_sched {κ α : Type} [LinearOrder κ] (model : α → Option (LossDict κ))
    (ws rank : Nat) (f : List ℚ → List ℚ) (maxIter : Nat)
    (bs : List α) (i : Nat) (st : TrainState κ α) :
    (((List.enumFrom i bs).foldl (trainBody model ws rank f maxIter) st).trace).countP
        eventIsSched
      = st.trace.countP eventIsSched + bs.length := by
  induction bs generalizing i st with
  | nil => simp [List.enumFrom]
  | cons b t ih =>
      have he : List.enumFrom i (b :: t) = (i, b) :: List.enumFrom (i + 1) t := rfl
      rw [he, List.foldl_cons, ih]
      simp only [trainBody, List.countP_append, trainStepTrace_sched_count,
        List.length_cons]
      omega

theorem testLoop_meters {κ α : Type} [LinearOrder κ] (model : α → Option (LossDict κ))
    (ws rank : Nat) (f : List ℚ → List ℚ)
    (bs : List α) (st : List (ℚ × LossDict κ) × List (Event κ α)) :
    (bs.foldl (testBody model ws rank f) st).1
      = st.1 ++ bs.filterMap (testStepMeter model ws rank f) := by
  induction bs generalizing st with
  | nil => simp
  | cons b t ih =>
      rw [List.foldl_cons, ih]
      cases h : testStepMeter model ws rank f b <;>
        simp [testBody, h, List.filterMap_cons]

theorem trainStepTrace_collective_count {κ α : Type} [LinearOrder κ]
    (model : α → Option (LossDict κ)) (ws rank : Nat) (f : List ℚ → List ℚ)
    (maxIter it : Nat) (b : α) :
    (trainStepTrace model ws rank f maxIter it b).countP eventIsCollective
      = if 2 ≤ ws ∧ (model b).isSome = true then 1 else 0 := by
  cases h : model b with
  | none => simp [trainStepTrace, h, eventIsCollective]
  | some ld =>
      by_cases hws : ws < 2
      · have hws2 : ¬ 2 ≤ ws := by omega
        by_cases hit : (it % 10 = 0 ∨ it = maxIter) <;>
          simp [trainStepTrace, h, hit, hws, hws2, eventIsCollective,
            reduce_loss_dict_snd, List.countP_append, List.countP_cons,
            List.countP_map, Function.comp]
      · have hws2 : 2 ≤ ws := by omega
        by_cases hit : (it % 10 = 0 ∨ it = maxIter) <;>
          simp [trainStepTrace, h, hit, hws, hws2, eventIsCollective,
            reduce_loss_dict_snd, List.countP_append, List.countP_cons,
            List.countP_map, Function.comp]

theorem testStepTrace_collective_count {κ α : Type} [LinearOrder κ]
    (model : α → Option (LossDict κ)) (ws rank : Nat) (f : List ℚ → List ℚ) (b : α) :
    (testStepTrace model ws rank f b).countP eventIsCollective
      = if 2 ≤ ws ∧ (model b).isSome = true then 1 else 0 := by
  cases h : model b with
  | none => simp [testStepTrace, h, eventIsCollective]
  | some ld =>
      by_cases hws : ws < 2
      · have hws2 : ¬ 2 ≤ ws := by omega
        simp [testStepTrace, h, hws, hws2, eventIsCollective, reduce_loss_dict_snd,
          List.countP_append, List.countP_cons, List.countP_map, Function.comp]
      · have hws2 : 2 ≤ ws := by omega
        simp [testStepTrace, h, hws, hws2, eventIsCollective, reduce_loss_dict_snd,
          List.countP_append, List.countP_cons, List.countP_map, Function.comp]

/-! ### Claims about `do_train` -/

/-- C4: when the model's forward pass raises on a batch (modelled by
`model b = none`), in both the training loop and the test loop the batch is
silently dropped (trainer.py lines 62-65 and 86-89): the iteration's trace
stops at the attempted forward pass — no meter update, no backward or
optimizer event, no logging event — the meters receive no entry for the
batch, and the surrounding loop simply continues: the meters of a run
containing the failing batch equal those of the run without it. No exception
propagates: the loop functions are total. -/
theorem forward_exception_drops_batch {κ α : Type} [LinearOrder κ]
    (model : α → Option (LossDict κ)) (ws rank : Nat) (f : List ℚ → List ℚ)
    (maxIter it startIter : Nat) (b : α) (bs1 bs2 : List α)
    (hb : model b = none) :
    trainStepTrace model ws rank f maxIter it b
        = [Event.setIteration it, Event.schedStep, Event.toDevice, Event.forward b]
    ∧ trainStepMeter model ws rank f b = none
    ∧ testStepTrace model ws rank f b = [Event.toDevice, Event.forward b]
    ∧ testStepMeter model ws rank f b = none
    ∧ (runTrainLoop model ws rank f maxIter startIter (bs1 ++ b :: bs2)).trainMeters
        = (runTrainLoop model ws rank f maxIter startIter (bs1 ++ bs2)).trainMeters
    ∧ (runTestLoop model ws rank f (bs1 ++ b :: bs2)).1
        = (runTestLoop model ws rank f (bs1 ++ bs2)).1 := by
  have hm : trainStepMeter model ws rank f b = none := by simp [trainStepMeter, hb]
  have hm2 : testStepMeter model ws rank f b = none := by simp [testStepMeter, hb]
  refine ⟨by simp [trainStepTrace, hb], hm, by simp [testStepTrace, hb], hm2, ?_, ?_⟩
  · rw [runTrainLoop, runTrainLoop, trainLoop_meters, trainLoop_meters]
    simp [List.filterMap_append, List.filterMap_cons, hm]
  · rw [runTestLoop, runTestLoop, testLoop_meters, testLoop_meters]
    simp [List.filterMap_append, List.filterMap_cons, hm2]

theorem forward_exception_drops_batch_example :
    trainStepTrace (fun _ : Nat => (none : Option (LossDict Nat))) 1 0 (fun xs => xs) 3 1 0
        = [Event.setIteration 1, Event.schedStep, Event.toDevice, Event.forward 0]
    ∧ trainStepMeter (fun _ : Nat => (none : Option (LossDict Nat))) 1 0 (fun xs => xs) 0
        = none
    ∧ testStepTrace (fun _ : Nat => (none : Option (LossDict Nat))) 1 0 (fun xs => xs) 0
        = [Event.toDevice, Event.forward 0]
    ∧ testStepMeter (fun _ : Nat => (none : Option (LossDict Nat))) 1 0 (fun xs => xs) 0
        = none
    ∧ (runTrainLoop (fun _ : Nat => (none : Option (LossDict Nat))) 1 0 (fun xs => xs) 3 0
          ([5] ++ 0 :: [7])).trainMeters
        = (runTrainLoop (fun _ : Nat => (none : Option (LossDict Nat))) 1 0 (fun xs => xs) 3 0
          ([5] ++ [7])).trainMeters
    ∧ (runTestLoop (fun _ : Nat => (none : Option (LossDict Nat))) 1 0 (fun xs => xs)
          ([5] ++ 0 :: [7])).1
        = (runTestLoop (fun _ : Nat => (none : Option (LossDict Nat))) 1 0 (fun xs => xs)
          ([5] ++ [7])).1 :=
  forward_exception_drops_batch (fun _ : Nat => (none : Option (LossDict Nat)))
    1 0 (fun xs => xs) 3 1 0 0 [5] [7] rfl

/-- C5, counterexample: with `world_size = 1` a successful training iteration
issues no collective reduce at all (trainer.py line 20 returns before line 29
runs), so the claim that every iteration issues exactly one collective reduce
fails on non-distributed runs. -/
theorem collective_count_zero_small_world :
    (trainStepTrace (fun _ : Nat => some [((0 : Nat), (1 : ℚ))]) 1 0 (fun xs => xs)
        1 1 0).countP eventIsCollective ≠ 1 := by
  decide

/-- C5 (amended): a training or test iteration issues at most one collective
operation, namely the `dist.reduce` inside `reduce_loss_dict` (trainer.py
line 29): exactly one when `world_size ≥ 2` and the forward pass succeeded,
and zero otherwise (`world_size < 2`, or the batch was dropped by the
exception handler); no other collective appears in the iteration's trace. -/
theorem collective_count_per_iteration {κ α : Type} [LinearOrder κ]
    (model : α → Option (LossDict κ)) (ws rank : Nat) (f : List ℚ → List ℚ)
    (maxIter it : Nat) (b : α) :
    (trainStepTrace model ws rank f maxIter it b).countP eventIsCollective
        = (if 2 ≤ ws ∧ (model b).isSome = true then 1 else 0)
    ∧ (testStepTrace model ws rank f b).countP eventIsCollective
        = (if 2 ≤ ws ∧ (model b).isSome = true then 1 else 0) :=
  ⟨trainStepTrace_collective_count model ws rank f maxIter it b,
   testStepTrace_collective_count model ws rank f b⟩

/-- C6: for a training batch whose forward pass succeeds, the iteration's
trace is exactly: forward pass, then the collective of `reduce_loss_dict`,
then the meter update carrying the reduced dictionary, then `zero_grad`, then
`backward` applied to the sum of the unreduced loss values, then the
optimizer step (trainer.py lines 67-76). In particular the gradient step
backpropagates `sumLosses ld` computed from the unreduced dictionary, while
the reduced values appear only in the meter update. -/
theorem gradient_step_uses_unreduced_loss {κ α : Type} [LinearOrder κ]
    (model : α → Option (LossDict κ)) (ws rank : Nat) (f : List ℚ → List ℚ)
    (maxIter it : Nat) (b : α) (ld : LossDict κ)
    (hb : model b = some ld) :
    trainStepTrace model ws rank f maxIter it b
      = [Event.setIteration it, Event.schedStep, Event.toDevice, Event.forward b]
        ++ (reduce_loss_dict ws rank f ld).2.map Event.collective
        ++ [Event.meterUpdate (sumLosses (reduce_loss_dict ws rank f ld).1)
              (reduce_loss_dict ws rank f ld).1,
            Event.zeroGrad, Event.backward (sumLosses ld), Event.optStep]
        ++ (if it % 10 = 0 ∨ it = maxIter then [Event.logMetrics] else []) := by
  simp [trainStepTrace, hb]

theorem gradient_step_uses_unreduced_loss_example :
    trainStepTrace (fun _ : Nat => some [((0 : Nat), (2 : ℚ)), (1, 4)]) 1 0
        (fun xs => xs) 3 1 0
      = [Event.setIteration 1, Event.schedStep, Event.toDevice, Event.forward 0,
         Event.meterUpdate 6 [((0 : Nat), (2 : ℚ)), (1, 4)], Event.zeroGrad,
         Event.backward 6, Event.optStep] := by
  have h := gradient_step_uses_unreduced_loss
    (fun _ : Nat => some [((0 : Nat), (2 : ℚ)), (1, 4)]) 1 0 (fun xs => xs) 3 1 0
    [((0 : Nat), (2 : ℚ)), (1, 4)] rfl
  refine h.trans ?_
  simp +decide [reduce_loss_dict, sumLosses]
  norm_num

/-- C7: `do_train` takes the model, the two data loaders, the distributed
context standing in for the optimizer/scheduler/device collaborators whose
effects the traces record, and the mutable `arguments` iteration counter, and
returns the pair (training metric accumulator, test metric accumulator) in
that order: the first component collects exactly the per-batch updates of the
training loader, the second those of the test loader (trainer.py lines 38-46
and 103). -/
theorem do_train_returns_train_then_test_meters {κ α : Type} [LinearOrder κ]
    (model : α → Option (LossDict κ)) (ws rank : Nat) (f : List ℚ → List ℚ)
    (trainB testB : List α) (startIter : Nat) :
    do_train model ws rank f trainB testB startIter
      = (trainB.filterMap (trainStepMeter model ws rank f),
         testB.filterMap (testStepMeter model ws rank f)) := by
  apply Prod.ext
  · show (do_train_effects model ws rank f trainB testB startIter).trainMeters = _
    simp only [do_train_effects, runTrainLoop]
    rw [trainLoop_meters]
    simp
  · show (do_train_effects model ws rank f trainB testB startIter).testMeters = _
    simp only [do_train_effects, runTestLoop]
    rw [testLoop_meters]
    simp

/-- C10: `arguments["iteration"]` is assigned the one-based iteration index
and the scheduler is stepped before the forward pass is attempted, so a batch
dropped by the exception handler still advances both; after the training loop
the stored counter equals the starting iteration plus the number of batches
consumed, dropped ones included, and the scheduler has stepped once per batch
(trainer.py lines 54-65). The statement quantifies over an arbitrary `model`,
so it covers every pattern of dropped batches, including all-failing runs. -/
theorem iteration_and_scheduler_advance_per_batch {κ α : Type} [LinearOrder κ]
    (model : α → Option (LossDict κ)) (ws rank : Nat) (f : List ℚ → List ℚ)
    (trainB testB : List α) (startIter : Nat) :
    (do_train_effects model ws rank f trainB testB startIter).argumentsIteration
        = startIter + trainB.length
    ∧ (do_train_effects model ws rank f trainB testB startIter).trainTrace.countP
        eventIsSched = trainB.length
    ∧ ∀ (it : Nat) (b : α),
        (trainStepTrace model ws rank f trainB.length it b).take 4
          = [Event.setIteration it, Event.schedStep, Event.toDevice, Event.forward b] := by
  refine ⟨?_, ?_, ?_⟩
  · show (runTrainLoop model ws rank f trainB.length startIter trainB).argumentsIteration = _
    simp only [runTrainLoop]
    exact trainLoop_args model ws rank f trainB.length trainB startIter _ rfl
  · show ((runTrainLoop model ws rank f trainB.length startIter trainB).trace).countP
        eventIsSched = _
    simp only [runTrainLoop]
    rw [trainLoop_sched]
    simp
  · intro it b
    cases h : model b <;> simp [trainStepTrace, h]

/-- C8: at the heap level, `reduce_loss_dict` never writes to a cell that
existed before the call: every pre-existing address keeps its value (so the
input dictionary and its tensors are unchanged, for every world size), and
when `world_size ≥ 2` every tensor reference in the returned dictionary is a
fresh address allocated for the stacked copy (trainer.py line 28), so the
returned dictionary shares no cell with the input; with `world_size < 2` the
heap and the dictionary are returned untouched. -/
theorem reduce_loss_dict_heap_frame {κ : Type} [LinearOrder κ]
    (ws rank : Nat) (f : List ℚ → List ℚ) (h : Heap) (d : RefLossDict κ) :
    (∀ a, a < h.vals.length →
        (reduce_loss_dict_heap ws rank f h d).1.read a = h.read a)
    ∧ (2 ≤ ws → ∀ p ∈ (reduce_loss_dict_heap ws rank f h d).2, h.vals.length ≤ p.2)
    ∧ (ws < 2 → reduce_loss_dict_heap ws rank f h d = (h, d)) := by
  refine ⟨?_, ?_, ?_⟩
  · intro a ha
    by_cases hws : ws < 2
    · simp [reduce_loss_dict_heap, hws]
    · simp only [reduce_loss_dict_heap, hws, if_false, Heap.read]
      exact List.getD_append _ _ _ _ ha
  · intro hws p hp
    have h2 : ¬ ws < 2 := by omega
    simp only [reduce_loss_dict_heap, h2, if_false, List.mem_map] at hp
    obtain ⟨q, _, rfl⟩ := hp
    exact Nat.le_add_right _ _
  · intro hws
    simp [reduce_loss_dict_heap, hws]

theorem reduce_loss_dict_heap_frame_example :
    (reduce_loss_dict_heap 2 0 (fun xs => xs) ⟨[(5 : ℚ)]⟩ [((0 : Nat), 0)]).1.read 0
      = Heap.read ⟨[(5 : ℚ)]⟩ 0 :=
  (reduce_loss_dict_heap_frame 2 0 (fun xs => xs) ⟨[(5 : ℚ)]⟩ [((0 : Nat), 0)]).1
    0 (by decide)
